import Mathlib

/-!
# Verification of the black-hole ray-tracing core

A shallow embedding of the numerical core of `black_hole_wasm_rust`
(`src/wasm/src/integrator.rs` and `src/wasm/src/physics.rs`) over the real
numbers, together with theorems settling the claims about the
coordinate converter, the geodesic integrator, the ray tracer and the
orbital-mechanics model.

Floating-point values (`f32`/`f64`) are modelled as real numbers.  The places
where the Rust code narrows an `f64` value to `f32` (the `as f32` casts when
`geodesic_rhs` packs derivatives into a `glam::Vec3`) are modelled by an
explicit cast function `c : ℝ → ℝ` threaded through `geodesic_rhsC` /
`rk4_stepC`; the idealized real-valued semantics used by the tracing loop is
the instance `c = id`.  `f64::atan2` is modelled by `Complex.arg`, which
agrees with the mathematical `atan2` convention on all quadrants and axes.
-/

open Real

noncomputable section

/-- Cartesian 3-vector, modelling `glam::Vec3` with real components. -/
structure Vec3 where
  x : ℝ
  y : ℝ
  z : ℝ
  deriving DecidableEq

/-- `glam::Vec3::length`: the Euclidean norm `sqrt (x² + y² + z²)`. -/
def Vec3.length (v : Vec3) : ℝ :=
  Real.sqrt (v.x * v.x + v.y * v.y + v.z * v.z)

/-- Speed of light, `physics.rs` constant `C`. -/
def C : ℝ := 299792458

/-- Gravitational constant, `physics.rs` constant `G`. -/
def G : ℝ := 6.67430e-11

/-- Mass of Sagittarius A*, `integrator.rs` constant `SAG_A_MASS`. -/
def SAG_A_MASS : ℝ := 8.54e36

/-- Schwarzschild radius of Sagittarius A*, `integrator.rs` constant
`SAG_A_RS = 2 G M / C²`. -/
def SAG_A_RS : ℝ := 2 * G * SAG_A_MASS / (C * C)

/-- Fixed affine-parameter step, `integrator.rs` constant `D_LAMBDA`. -/
def D_LAMBDA : ℝ := 1e7

/-- Escape radius, `integrator.rs` constant `ESCAPE_R`. -/
def ESCAPE_R : ℝ := 1e30

/-- Geodesic state in spherical coordinates, `physics.rs` struct `Ray`
(all fields are `f64` in the source, modelled as reals). -/
structure Ray where
  r : ℝ
  theta : ℝ
  phi : ℝ
  dr : ℝ
  dtheta : ℝ
  dphi : ℝ
  dt : ℝ
  energy : ℝ
  angular_momentum : ℝ

/-- Model of `f64::atan2 (self = y, other = x)`: the argument of the complex
number `x + i y`. -/
def atan2 (y x : ℝ) : ℝ := Complex.arg ⟨x, y⟩

/-- `integrator.rs` `init_ray`: convert a Cartesian position/direction pair
into a spherical-coordinate `Ray`, deriving the conserved quantities and the
coordinate-time rate from the Schwarzschild metric with `SAG_A_RS`. -/
def init_ray (pos dir : Vec3) : Ray :=
  let r := pos.length
  let theta := Real.arccos (pos.z / r)
  let phi := atan2 pos.y pos.x
  let dx := dir.x
  let dy := dir.y
  let dz := dir.z
  let dr := Real.sin theta * Real.cos phi * dx + Real.sin theta * Real.sin phi * dy
    + Real.cos theta * dz
  let dtheta := (Real.cos theta * Real.cos phi * dx + Real.cos theta * Real.sin phi * dy
    - Real.sin theta * dz) / r
  let dphi := (-Real.sin phi * dx + Real.cos phi * dy) / (r * Real.sin theta)
  let angular_momentum := r * r * Real.sin theta * dphi
  let f := 1 - SAG_A_RS / r
  let dt_dl := Real.sqrt (dr * dr / f
    + r * r * (dtheta * dtheta + Real.sin theta * Real.sin theta * dphi * dphi))
  let energy := f * dt_dl
  { r := r, theta := theta, phi := phi, dr := dr, dtheta := dtheta, dphi := dphi,
    dt := dt_dl, energy := energy, angular_momentum := angular_momentum }

/-- `integrator.rs` `geodesic_rhs`, with the two `Vec3::new(.. as f32, ..)`
constructions modelled by applying an explicit narrowing cast `c` to each
component (the source stores the six derivative values in single-precision
`glam::Vec3`s). -/
def geodesic_rhsC (c : ℝ → ℝ) (ray : Ray) (r_s : ℝ) : Vec3 × Vec3 :=
  let r := ray.r
  let theta := ray.theta
  let dr := ray.dr
  let dtheta := ray.dtheta
  let dphi := ray.dphi
  let f := 1 - r_s / r
  let dt_dl := ray.energy / f
  let d1 := Vec3.mk (c dr) (c dtheta) (c dphi)
  let d2r := -(r_s / (2 * r * r)) * f * dt_dl * dt_dl
    + (r_s / (2 * r * r * f)) * dr * dr
    + r * (dtheta * dtheta + Real.sin theta * Real.sin theta * dphi * dphi)
  let d2theta := -2 * dr * dtheta / r + Real.sin theta * Real.cos theta * dphi * dphi
  let d2phi := -2 * dr * dphi / r - 2 * Real.cos theta / Real.sin theta * dtheta * dphi
  let d2 := Vec3.mk (c d2r) (c d2theta) (c d2phi)
  (d1, d2)

/-- `integrator.rs` `rk4_step` with the explicit narrowing cast `c`: a single
evaluation of `geodesic_rhs` followed by a first-order update of the six
position/velocity fields (the `as f64` widening on read-back is exact, hence
the identity here). -/
def rk4_stepC (c : ℝ → ℝ) (ray : Ray) (dl r_s : ℝ) : Ray :=
  let k := geodesic_rhsC c ray r_s
  { ray with
    r := ray.r + dl * k.1.x
    theta := ray.theta + dl * k.1.y
    phi := ray.phi + dl * k.1.z
    dr := ray.dr + dl * k.2.x
    dtheta := ray.dtheta + dl * k.2.y
    dphi := ray.dphi + dl * k.2.z }

/-- `integrator.rs` `geodesic_rhs` under the idealized real-valued semantics
(narrowing casts read as the identity). -/
def geodesic_rhs (ray : Ray) (r_s : ℝ) : Vec3 × Vec3 := geodesic_rhsC id ray r_s

/-- `integrator.rs` `rk4_step` under the idealized real-valued semantics. -/
def rk4_step (ray : Ray) (dl r_s : ℝ) : Ray := rk4_stepC id ray dl r_s

/-- Terminal classification, `integrator.rs` enum `TraceResult`. -/
inductive TraceResult where
  | HitBlackHole
  | HitDisk
  | HitObject
  | Escaped
  | MaxSteps
  deriving DecidableEq

/-- The `for _ in 0..max_steps` loop body of `integrator.rs` `trace_ray`,
indexed by the number of remaining iterations: check the horizon, step,
check escape, else recurse; falling out of the loop yields `MaxSteps`. -/
def traceLoop (ray : Ray) (r_s : ℝ) : ℕ → TraceResult
  | 0 => TraceResult.MaxSteps
  | n + 1 =>
    if ray.r ≤ r_s then TraceResult.HitBlackHole
    else
      let ray' := rk4_step ray D_LAMBDA r_s
      if ray'.r > ESCAPE_R then TraceResult.Escaped
      else traceLoop ray' r_s n

/-- `integrator.rs` `trace_ray`. -/
def trace_ray (pos dir : Vec3) (r_s : ℝ) (max_steps : ℕ) : TraceResult :=
  traceLoop (init_ray pos dir) r_s max_steps

/-- The number of `rk4_step` calls `traceLoop` performs. -/
def traceLoopSteps (ray : Ray) (r_s : ℝ) : ℕ → ℕ
  | 0 => 0
  | n + 1 =>
    if ray.r ≤ r_s then 0
    else
      let ray' := rk4_step ray D_LAMBDA r_s
      if ray'.r > ESCAPE_R then 1
      else 1 + traceLoopSteps ray' r_s n

/-- The number of `rk4_step` calls a `trace_ray` invocation performs. -/
def trace_ray_steps (pos dir : Vec3) (r_s : ℝ) (max_steps : ℕ) : ℕ :=
  traceLoopSteps (init_ray pos dir) r_s max_steps

/-- The list of states at which `traceLoop` invokes `rk4_step`, in call
order. -/
def traceLoopCallStates (ray : Ray) (r_s : ℝ) : ℕ → List Ray
  | 0 => []
  | n + 1 =>
    if ray.r ≤ r_s then []
    else
      let ray' := rk4_step ray D_LAMBDA r_s
      if ray'.r > ESCAPE_R then [ray]
      else ray :: traceLoopCallStates ray' r_s n

/-- The list of states at which a `trace_ray` invocation calls `rk4_step`. -/
def trace_ray_call_states (pos dir : Vec3) (r_s : ℝ) (max_steps : ℕ) : List Ray :=
  traceLoopCallStates (init_ray pos dir) r_s max_steps

/-- `physics.rs` `Ray::to_cartesian`.  Note the polar axis here is `y`
(`y = r cos θ`), whereas `init_ray` measures `θ` from the `z` axis. -/
def Ray.to_cartesian (ray : Ray) : Vec3 :=
  Vec3.mk (ray.r * Real.sin ray.theta * Real.cos ray.phi)
    (ray.r * Real.cos ray.theta)
    (ray.r * Real.sin ray.theta * Real.sin ray.phi)

/-- Orbiting body, `physics.rs` struct `Planet` (`f32` fields modelled as
reals). -/
structure Planet where
  position : Vec3
  velocity : Vec3
  radius : ℝ
  semi_major_axis : ℝ
  eccentricity : ℝ
  mean_motion : ℝ

/-- The fixed-point iteration for Kepler's equation used by
`Planet::update`: seed `E₀ = M`, then `E ← M + e sin E`, `n` times. -/
def keplerIter (e M : ℝ) : ℕ → ℝ
  | 0 => M
  | n + 1 => M + e * Real.sin (keplerIter e M n)

/-- `physics.rs` `Planet::update`, as a pure state-to-state function: compute
the mean anomaly, run exactly ten fixed-point iterations of Kepler's
equation, then set `position` and `velocity` from the resulting eccentric
anomaly with a fixed 30° inclination. -/
def Planet.update (p : Planet) (time : ℝ) : Planet :=
  let mean_anomaly := p.mean_motion * time
  let eccentric_anomaly := keplerIter p.eccentricity mean_anomaly 10
  let cos_e := Real.cos eccentric_anomaly
  let sin_e := Real.sin eccentric_anomaly
  let x_orbit := p.semi_major_axis * (cos_e - p.eccentricity)
  let z_orbit := p.semi_major_axis * Real.sqrt (1 - p.eccentricity * p.eccentricity) * sin_e
  let inclination := (30 : ℝ) * (Real.pi / 180)
  let vx_orbit := -p.semi_major_axis * p.mean_motion * sin_e / (1 - p.eccentricity * cos_e)
  let vz_orbit := p.semi_major_axis * p.mean_motion
    * Real.sqrt (1 - p.eccentricity * p.eccentricity) * cos_e / (1 - p.eccentricity * cos_e)
  { p with
    position := Vec3.mk x_orbit (z_orbit * Real.sin inclination)
      (z_orbit * Real.cos inclination)
    velocity := Vec3.mk vx_orbit (vz_orbit * Real.sin inclination)
      (vz_orbit * Real.cos inclination) }

/-- Spec-side characterization of `init_ray`: the spec formulas of §4.2 for
the spherical position, the spherical-basis velocity components, the angular
momentum, the coordinate-time rate and the energy. -/
def init_ray_matches_spec (pos dir : Vec3) : Prop :=
  let r := pos.length
  let theta := Real.arccos (pos.z / r)
  let phi := atan2 pos.y pos.x
  (init_ray pos dir).r = r ∧
  (init_ray pos dir).theta = theta ∧
  (init_ray pos dir).phi = phi ∧
  (init_ray pos dir).dr = Real.sin theta * Real.cos phi * dir.x
    + Real.sin theta * Real.sin phi * dir.y + Real.cos theta * dir.z ∧
  (init_ray pos dir).dtheta = (Real.cos theta * Real.cos phi * dir.x
    + Real.cos theta * Real.sin phi * dir.y - Real.sin theta * dir.z) / r ∧
  (init_ray pos dir).dphi = (-Real.sin phi * dir.x + Real.cos phi * dir.y)
    / (r * Real.sin theta) ∧
  (init_ray pos dir).angular_momentum
    = r ^ 2 * Real.sin theta * (init_ray pos dir).dphi ∧
  (init_ray pos dir).dt = Real.sqrt ((init_ray pos dir).dr ^ 2 / (1 - SAG_A_RS / r)
    + r ^ 2 * ((init_ray pos dir).dtheta ^ 2
      + Real.sin theta ^ 2 * (init_ray pos dir).dphi ^ 2)) ∧
  (init_ray pos dir).energy = (1 - SAG_A_RS / r) * (init_ray pos dir).dt

/-! ## Basic unfolding lemmas -/

/-- The radial coordinate produced by `init_ray` is the Euclidean norm of the
input position. -/
lemma init_ray_r (pos dir : Vec3) : (init_ray pos dir).r = pos.length := rfl

/-- The radial update performed by `rk4_step`: a first-order step along the
current radial velocity. -/
lemma rk4_step_r (ray : Ray) (dl r_s : ℝ) :
    (rk4_step ray dl r_s).r = ray.r + dl * ray.dr := rfl

/-- Every run of the tracing loop classifies the ray as `HitBlackHole`,
`Escaped` or `MaxSteps`; the `HitDisk` and `HitObject` constructors are never
produced. -/
lemma traceLoop_result_cases (r_s : ℝ) : ∀ (n : ℕ) (ray : Ray),
    traceLoop ray r_s n = TraceResult.HitBlackHole ∨
    traceLoop ray r_s n = TraceResult.Escaped ∨
    traceLoop ray r_s n = TraceResult.MaxSteps := by
  intro n
  induction n with
  | zero => exact fun ray => Or.inr (Or.inr rfl)
  | succ n ih =>
    intro ray
    simp only [traceLoop]
    split
    · exact Or.inl rfl
    · split
      · exact Or.inr (Or.inl rfl)
      · exact ih _

/-- The fixed-point recursion `keplerIter` is iteration of the Kepler update
map `E ↦ M + e sin E` starting from the seed `M`. -/
lemma keplerIter_eq_iterate (e M : ℝ) (n : ℕ) :
    keplerIter e M n = (fun E => M + e * Real.sin E)^[n] M := by
  induction n with
  | zero => rfl
  | succ n ih => rw [keplerIter, ih, Function.iterate_succ_apply']

/-- Unfolding of one tracing-loop iteration. -/
lemma traceLoop_succ (ray : Ray) (r_s : ℝ) (n : ℕ) :
    traceLoop ray r_s (n + 1) =
      if ray.r ≤ r_s then TraceResult.HitBlackHole
      else if (rk4_step ray D_LAMBDA r_s).r > ESCAPE_R then TraceResult.Escaped
      else traceLoop (rk4_step ray D_LAMBDA r_s) r_s n := rfl

/-- Unfolding of one step-count iteration. -/
lemma traceLoopSteps_succ (ray : Ray) (r_s : ℝ) (n : ℕ) :
    traceLoopSteps ray r_s (n + 1) =
      if ray.r ≤ r_s then 0
      else if (rk4_step ray D_LAMBDA r_s).r > ESCAPE_R then 1
      else 1 + traceLoopSteps (rk4_step ray D_LAMBDA r_s) r_s n := rfl

/-- Unfolding of one call-state-list iteration. -/
lemma traceLoopCallStates_succ (ray : Ray) (r_s : ℝ) (n : ℕ) :
    traceLoopCallStates ray r_s (n + 1) =
      if ray.r ≤ r_s then []
      else if (rk4_step ray D_LAMBDA r_s).r > ESCAPE_R then [ray]
      else ray :: traceLoopCallStates (rk4_step ray D_LAMBDA r_s) r_s n := rfl

/-- The spherical radial unit vector has unit Euclidean norm. -/
lemma unit_combo_sq (a b : ℝ) :
    (Real.sin a * Real.cos b) ^ 2 + (Real.sin a * Real.sin b) ^ 2 + Real.cos a ^ 2 = 1 := by
  have h1 : Real.sin a ^ 2 + Real.cos a ^ 2 = 1 := Real.sin_sq_add_cos_sq a
  have h2 : Real.sin b ^ 2 + Real.cos b ^ 2 = 1 := Real.sin_sq_add_cos_sq b
  calc (Real.sin a * Real.cos b) ^ 2 + (Real.sin a * Real.sin b) ^ 2 + Real.cos a ^ 2
      = Real.sin a ^ 2 * (Real.sin b ^ 2 + Real.cos b ^ 2) + Real.cos a ^ 2 := by ring
    _ = 1 := by rw [h2, mul_one]; exact h1

/-- The radial velocity produced by `init_ray` is bounded by the norm of the
input direction (Cauchy–Schwarz with the unit radial basis vector). -/
lemma abs_init_dr_le (pos dir : Vec3) : |(init_ray pos dir).dr| ≤ dir.length := by
  set θ := Real.arccos (pos.z / pos.length) with hθ
  set φ := atan2 pos.y pos.x with hφ
  have hdr : (init_ray pos dir).dr = Real.sin θ * Real.cos φ * dir.x
      + Real.sin θ * Real.sin φ * dir.y + Real.cos θ * dir.z := rfl
  rw [hdr, Vec3.length, ← Real.sqrt_sq_eq_abs]
  apply Real.sqrt_le_sqrt
  have hunit := unit_combo_sq θ φ
  calc (Real.sin θ * Real.cos φ * dir.x + Real.sin θ * Real.sin φ * dir.y
        + Real.cos θ * dir.z) ^ 2
      ≤ ((Real.sin θ * Real.cos φ) ^ 2 + (Real.sin θ * Real.sin φ) ^ 2 + Real.cos θ ^ 2)
        * (dir.x * dir.x + dir.y * dir.y + dir.z * dir.z) := by
        nlinarith [sq_nonneg (Real.sin θ * Real.cos φ * dir.y - Real.sin θ * Real.sin φ * dir.x),
          sq_nonneg (Real.sin θ * Real.cos φ * dir.z - Real.cos θ * dir.x),
          sq_nonneg (Real.sin θ * Real.sin φ * dir.z - Real.cos θ * dir.y)]
    _ = dir.x * dir.x + dir.y * dir.y + dir.z * dir.z := by rw [hunit, one_mul]

/-- The norm of a vector along the positive x axis. -/
lemma length_x_axis (a : ℝ) (ha : 0 ≤ a) : Vec3.length (Vec3.mk a 0 0) = a := by
  rw [Vec3.length]
  show Real.sqrt (a * a + 0 * 0 + 0 * 0) = a
  rw [show a * a + 0 * 0 + 0 * 0 = a ^ 2 by ring, Real.sqrt_sq ha]

/-- Every state passed to `rk4_step` by the tracing loop has `r > r_s`. -/
lemma traceLoopCallStates_above_horizon (r_s : ℝ) : ∀ (n : ℕ) (ray s : Ray),
    s ∈ traceLoopCallStates ray r_s n → r_s < s.r := by
  intro n
  induction n with
  | zero => intro ray s h; simp [traceLoopCallStates] at h
  | succ n ih =>
    intro ray s h
    rw [traceLoopCallStates_succ] at h
    by_cases hg : ray.r ≤ r_s
    · rw [if_pos hg] at h
      simp at h
    · rw [if_neg hg] at h
      push_neg at hg
      by_cases he : (rk4_step ray D_LAMBDA r_s).r > ESCAPE_R
      · rw [if_pos he, List.mem_singleton] at h
        exact h ▸ hg
      · rw [if_neg he] at h
        rcases List.mem_cons.mp h with h | h
        · exact h ▸ hg
        · exact ih _ _ h

/-- A complex number built from a nonzero coordinate pair is nonzero. -/
lemma complex_mk_ne_zero (x y : ℝ) (h : 0 < x * x + y * y) : (⟨x, y⟩ : ℂ) ≠ 0 := by
  intro h0
  rw [Complex.ext_iff] at h0
  simp only [Complex.zero_re, Complex.zero_im] at h0
  rcases h0 with ⟨hx, hy⟩
  rw [hx, hy] at h
  norm_num at h

/-- Cosine of the modelled `atan2`. -/
lemma cos_atan2 (y x : ℝ) (h : 0 < x * x + y * y) :
    Real.cos (atan2 y x) = x / Real.sqrt (x * x + y * y) := by
  rw [atan2, Complex.cos_arg (complex_mk_ne_zero x y h), Complex.abs_apply, Complex.normSq_mk]

/-- Sine of the modelled `atan2`. -/
lemma sin_atan2 (y x : ℝ) :
    Real.sin (atan2 y x) = y / Real.sqrt (x * x + y * y) := by
  rw [atan2, Complex.sin_arg, Complex.abs_apply, Complex.normSq_mk]

/-- The coordinate round trip through `init_ray` and `Ray::to_cartesian`
swaps the `y` and `z` components: `init_ray` measures the polar angle from
the `z` axis while `to_cartesian` rebuilds the vector with `y` as the polar
axis. -/
lemma to_cartesian_init_ray (pos dir : Vec3) (h : 0 < pos.x * pos.x + pos.y * pos.y) :
    Ray.to_cartesian (init_ray pos dir) = Vec3.mk pos.x pos.z pos.y := by
  rcases pos with ⟨x, y, z⟩
  simp only at h
  have hS : 0 < x * x + y * y + z * z := by nlinarith [mul_self_nonneg z]
  have hrpos : 0 < Real.sqrt (x * x + y * y + z * z) := Real.sqrt_pos.mpr hS
  have hρpos : 0 < Real.sqrt (x * x + y * y) := Real.sqrt_pos.mpr h
  have hrne : Real.sqrt (x * x + y * y + z * z) ≠ 0 := hrpos.ne'
  have hρne : Real.sqrt (x * x + y * y) ≠ 0 := hρpos.ne'
  have habs : |z| ≤ Real.sqrt (x * x + y * y + z * z) := by
    rw [← Real.sqrt_mul_self_eq_abs]
    exact Real.sqrt_le_sqrt (by nlinarith [mul_self_nonneg x, mul_self_nonneg y])
  have hcosθ : Real.cos (Real.arccos (z / Real.sqrt (x * x + y * y + z * z)))
      = z / Real.sqrt (x * x + y * y + z * z) := by
    apply Real.cos_arccos
    · rw [le_div_iff₀ hrpos]
      have := (abs_le.mp habs).1
      linarith
    · rw [div_le_one hrpos]
      exact (abs_le.mp habs).2
  have hsinθ : Real.sin (Real.arccos (z / Real.sqrt (x * x + y * y + z * z)))
      = Real.sqrt (x * x + y * y) / Real.sqrt (x * x + y * y + z * z) := by
    rw [Real.sin_arccos, div_pow, Real.sq_sqrt hS.le,
      show (1 : ℝ) - z ^ 2 / (x * x + y * y + z * z)
        = (x * x + y * y) / (x * x + y * y + z * z) by field_simp; ring,
      Real.sqrt_div (by nlinarith [mul_self_nonneg x, mul_self_nonneg y] :
        (0 : ℝ) ≤ x * x + y * y)]
  simp only [Ray.to_cartesian, init_ray, Vec3.length]
  rw [hcosθ, hsinθ, cos_atan2 y x h, sin_atan2 y x, Vec3.mk.injEq]
  refine ⟨?_, ?_, ?_⟩
  · field_simp
  · field_simp
  · field_simp

/-! ## Claim theorems -/

/-- Claim C3: `trace_ray` evaluates its transition rule once per step in the
order (1) horizon check `r ≤ r_s` terminating `HitBlackHole`, (2) one
integrator step with increment `D_LAMBDA = 1e7`, (3) escape check
`r > ESCAPE_R = 1e30` terminating `Escaped`, (4) `MaxSteps` when the step
budget is exhausted; consequently `trace_ray` never returns `HitDisk` or
`HitObject` for any input. -/
theorem trace_ray_transition_order :
    (∀ pos dir r_s, trace_ray pos dir r_s 0 = TraceResult.MaxSteps) ∧
    (∀ pos dir r_s n, trace_ray pos dir r_s (n + 1) =
      if (init_ray pos dir).r ≤ r_s then TraceResult.HitBlackHole
      else if (rk4_step (init_ray pos dir) D_LAMBDA r_s).r > ESCAPE_R then TraceResult.Escaped
      else traceLoop (rk4_step (init_ray pos dir) D_LAMBDA r_s) r_s n) ∧
    (∀ pos dir r_s n, trace_ray pos dir r_s n = TraceResult.HitBlackHole ∨
      trace_ray pos dir r_s n = TraceResult.Escaped ∨
      trace_ray pos dir r_s n = TraceResult.MaxSteps) := by
  refine ⟨fun pos dir r_s => rfl, fun pos dir r_s n => ?_,
    fun pos dir r_s n => traceLoop_result_cases r_s n _⟩
  rw [trace_ray, traceLoop]

/-- Claim C10: with a step budget of zero, `trace_ray` returns `MaxSteps`
for every position, direction and Schwarzschild radius — no iteration of the
transition rule runs and no integration step executes, even for initial
states at or below the horizon or beyond the escape radius. -/
theorem trace_ray_zero_budget (pos dir : Vec3) (r_s : ℝ) :
    trace_ray pos dir r_s 0 = TraceResult.MaxSteps ∧
    trace_ray_steps pos dir r_s 0 = 0 :=
  ⟨rfl, rfl⟩

/-- Claim C9: `Planet::update` mutates only `position` and `velocity`; the
`radius`, `semi_major_axis`, `eccentricity` and `mean_motion` fields are
unchanged by the update. -/
theorem planet_update_preserves_orbital_elements (p : Planet) (t : ℝ) :
    (Planet.update p t).radius = p.radius ∧
    (Planet.update p t).semi_major_axis = p.semi_major_axis ∧
    (Planet.update p t).eccentricity = p.eccentricity ∧
    (Planet.update p t).mean_motion = p.mean_motion :=
  ⟨rfl, rfl, rfl, rfl⟩

/-- Claim C8: `Planet::update` computes the mean anomaly `M = mean_motion·t`,
solves Kepler's equation by exactly ten fixed-point iterations of
`E ↦ M + e sin E` seeded at `E₀ = M` (no convergence check or early exit),
and computes the position from the resulting eccentric anomaly with the fixed
30° inclination. -/
theorem planet_update_kepler (p : Planet) (t : ℝ) :
    (Planet.update p t).position =
      (let M := p.mean_motion * t
      let E := (fun x => M + p.eccentricity * Real.sin x)^[10] M
      let z_orbit := p.semi_major_axis
        * Real.sqrt (1 - p.eccentricity * p.eccentricity) * Real.sin E
      Vec3.mk (p.semi_major_axis * (Real.cos E - p.eccentricity))
        (z_orbit * Real.sin ((30 : ℝ) * (Real.pi / 180)))
        (z_orbit * Real.cos ((30 : ℝ) * (Real.pi / 180)))) := by
  simp only [Planet.update, keplerIter_eq_iterate]

/-- Claim C6: one call to `rk4_step`
performs a first-order Euler update `x ← x + dλ·rhs(x)` driven by a single
evaluation of the geodesic right-hand side, which recomputes `f = 1 − r_s/r`
and `dt/dλ = energy/f` at the current state and uses the stated Schwarzschild
acceleration formulas; the conserved `dt`, `energy` and `angular_momentum`
fields are untouched. -/
theorem rk4_step_single_eval_euler (ray : Ray) (dl r_s : ℝ) :
    rk4_step ray dl r_s =
      (let f := 1 - r_s / ray.r
      let dt_dl := ray.energy / f
      { ray with
        r := ray.r + dl * ray.dr
        theta := ray.theta + dl * ray.dtheta
        phi := ray.phi + dl * ray.dphi
        dr := ray.dr + dl * (-(r_s / (2 * ray.r ^ 2)) * f * dt_dl ^ 2
          + r_s / (2 * ray.r ^ 2 * f) * ray.dr ^ 2
          + ray.r * (ray.dtheta ^ 2 + Real.sin ray.theta ^ 2 * ray.dphi ^ 2))
        dtheta := ray.dtheta + dl * (-2 * ray.dr * ray.dtheta / ray.r
          + Real.sin ray.theta * Real.cos ray.theta * ray.dphi ^ 2)
        dphi := ray.dphi + dl * (-2 * ray.dr * ray.dphi / ray.r
          - 2 * (Real.cos ray.theta / Real.sin ray.theta) * ray.dtheta * ray.dphi) }) := by
  simp only [rk4_step, rk4_stepC, geodesic_rhsC, id_eq, Ray.mk.injEq]
  refine ⟨by ring, by ring, by ring, by ring_nf, by ring_nf, by ring_nf, trivial, trivial, trivial⟩

/-- Claim C7, counterexample: the state update of a `GeodesicIntegrator` step
does depend on the narrowing cast applied where `geodesic_rhs` packs its six
derivative values into single-precision `Vec3`s; were no intermediate value
rounded through single precision there, the result would be independent of
that cast. -/
theorem rk4_step_cast_dependence :
    rk4_stepC (fun _ => 0) (Ray.mk 1 1 0 1 0 0 1 1 0) 1 0 ≠
    rk4_stepC id (Ray.mk 1 1 0 1 0 0 1 1 0) 1 0 := by
  intro hEq
  have h := congrArg Ray.r hEq
  simp only [rk4_stepC, geodesic_rhsC, id_eq] at h
  norm_num at h

/-- Claim C7 as amended: the `Ray` state itself is carried in double
precision (the `dt`, `energy`, `angular_momentum` fields and the six updated
state fields are never narrowed), but every derivative and acceleration
component produced by the right-hand side is passed through the
single-precision cast `c` between the evaluation and the state update. -/
theorem rk4_stepC_casts_each_derivative (c : ℝ → ℝ) (ray : Ray) (dl r_s : ℝ) :
    rk4_stepC c ray dl r_s =
      (let f := 1 - r_s / ray.r
      let dt_dl := ray.energy / f
      { ray with
        r := ray.r + dl * c ray.dr
        theta := ray.theta + dl * c ray.dtheta
        phi := ray.phi + dl * c ray.dphi
        dr := ray.dr + dl * c (-(r_s / (2 * ray.r * ray.r)) * f * dt_dl * dt_dl
          + r_s / (2 * ray.r * ray.r * f) * ray.dr * ray.dr
          + ray.r * (ray.dtheta * ray.dtheta
            + Real.sin ray.theta * Real.sin ray.theta * ray.dphi * ray.dphi))
        dtheta := ray.dtheta + dl * c (-2 * ray.dr * ray.dtheta / ray.r
          + Real.sin ray.theta * Real.cos ray.theta * ray.dphi * ray.dphi)
        dphi := ray.dphi + dl * c (-2 * ray.dr * ray.dphi / ray.r
          - 2 * Real.cos ray.theta / Real.sin ray.theta * ray.dtheta * ray.dphi) }) :=
  rfl

/-- Claim C4: within every execution of `trace_ray`, each state at which the
tracing loop invokes `rk4_step` (and hence evaluates the geodesic right-hand
side and the lapse factor `f = 1 − r_s/r`) satisfies `r > r_s`: the
preceding horizon check guards every integrator call, so the sub-horizon
pole of `f` is unreachable inside the traced loop. -/
theorem trace_ray_calls_above_horizon (pos dir : Vec3) (r_s : ℝ) (max_steps : ℕ)
    (s : Ray) (h : s ∈ trace_ray_call_states pos dir r_s max_steps) : r_s < s.r :=
  traceLoopCallStates_above_horizon r_s max_steps (init_ray pos dir) s h

/-- Claim C4, witness: a concrete trace whose single integrator call happens
at radius `1 > r_s = 0`. -/
theorem trace_ray_calls_above_horizon_witness :
    init_ray (Vec3.mk 1 0 0) (Vec3.mk 0 0 0)
      ∈ trace_ray_call_states (Vec3.mk 1 0 0) (Vec3.mk 0 0 0) 0 1 ∧
    (0 : ℝ) < (init_ray (Vec3.mk 1 0 0) (Vec3.mk 0 0 0)).r := by
  have hguard : ¬ (init_ray (Vec3.mk 1 0 0) (Vec3.mk 0 0 0)).r ≤ (0 : ℝ) := by
    rw [init_ray_r, length_x_axis 1 (by norm_num)]
    norm_num
  have hmem : init_ray (Vec3.mk 1 0 0) (Vec3.mk 0 0 0)
      ∈ trace_ray_call_states (Vec3.mk 1 0 0) (Vec3.mk 0 0 0) 0 1 := by
    show init_ray (Vec3.mk 1 0 0) (Vec3.mk 0 0 0)
      ∈ traceLoopCallStates (init_ray (Vec3.mk 1 0 0) (Vec3.mk 0 0 0)) 0 (0 + 1)
    rw [traceLoopCallStates_succ, if_neg hguard]
    split
    · exact List.mem_singleton.mpr rfl
    · exact List.mem_cons_self _ _
  exact ⟨hmem, trace_ray_calls_above_horizon (Vec3.mk 1 0 0) (Vec3.mk 0 0 0) 0 1 _ hmem⟩

/-- Claim C5: on non-singular input, `init_ray` populates every `Ray` field
according to the spec formulas: `r = |pos|`, `theta = acos(pos.z/r)`,
`phi = atan2(pos.y, pos.x)`, spherical-basis velocity projections, angular
momentum `r² sin θ · dphi`, `dt = sqrt(dr²/f + r²(dθ² + sin²θ dφ²))` with
`f = 1 − r_s/r`, and `energy = f·dt`. -/
theorem init_ray_follows_spec (pos dir : Vec3) (h1 : 0 < pos.length)
    (h2 : Real.sin (Real.arccos (pos.z / pos.length)) ≠ 0) :
    init_ray_matches_spec pos dir := by
  simp only [init_ray_matches_spec]
  refine ⟨rfl, rfl, rfl, rfl, rfl, rfl, ?_, ?_, rfl⟩
  · simp only [init_ray]
    ring
  · simp only [init_ray]
    congr 1
    ring

/-- Claim C5, witness: the spec characterization instantiated at the
non-singular input `pos = (1,0,0)`, `dir = (1,2,3)`. -/
theorem init_ray_follows_spec_witness :
    (0 : ℝ) < (Vec3.mk 1 0 0).length ∧
    Real.sin (Real.arccos ((Vec3.mk 1 0 0).z / (Vec3.mk 1 0 0).length)) ≠ 0 ∧
    init_ray_matches_spec (Vec3.mk 1 0 0) (Vec3.mk 1 2 3) := by
  have hl : Vec3.length (Vec3.mk 1 0 0) = 1 := length_x_axis 1 (by norm_num)
  have h1 : (0 : ℝ) < (Vec3.mk 1 0 0).length := by rw [hl]; norm_num
  have h2 : Real.sin (Real.arccos ((Vec3.mk 1 0 0).z / (Vec3.mk 1 0 0).length)) ≠ 0 := by
    show Real.sin (Real.arccos (0 / Vec3.length (Vec3.mk 1 0 0))) ≠ 0
    rw [zero_div, Real.sin_arccos]
    norm_num
  exact ⟨h1, h2, init_ray_follows_spec (Vec3.mk 1 0 0) (Vec3.mk 1 2 3) h1 h2⟩

/-- Claim C1 as amended: a ray whose initial radius exceeds `ESCAPE_R` by
more than the largest possible radial advance `D_LAMBDA·|dir|` of one step
terminates `Escaped` — but only after exactly one integration step executes,
since `trace_ray` performs its escape check after the integrator step; the
step budget must be at least one and `r_s` must not exceed `ESCAPE_R`. -/
theorem trace_ray_far_init_escapes (pos dir : Vec3) (r_s : ℝ) (max_steps : ℕ)
    (h1 : ESCAPE_R + D_LAMBDA * dir.length < pos.length)
    (h2 : r_s ≤ ESCAPE_R) (h3 : 1 ≤ max_steps) :
    trace_ray pos dir r_s max_steps = TraceResult.Escaped ∧
    trace_ray_steps pos dir r_s max_steps = 1 := by
  obtain ⟨n, rfl⟩ : ∃ n, max_steps = n + 1 :=
    ⟨max_steps - 1, (Nat.succ_pred_eq_of_pos h3).symm⟩
  have hdl : (0 : ℝ) < D_LAMBDA := by rw [D_LAMBDA]; norm_num
  have hlen : 0 ≤ dir.length := Real.sqrt_nonneg _
  have hmargin : 0 ≤ D_LAMBDA * dir.length := mul_nonneg hdl.le hlen
  have hr0 : ESCAPE_R < pos.length := by linarith
  have hguard : ¬ (init_ray pos dir).r ≤ r_s := by
    rw [init_ray_r]
    push_neg
    exact lt_of_le_of_lt h2 hr0
  have hdr := abs_init_dr_le pos dir
  have hesc : (rk4_step (init_ray pos dir) D_LAMBDA r_s).r > ESCAPE_R := by
    rw [rk4_step_r, init_ray_r]
    have hneg : -|(init_ray pos dir).dr| ≤ (init_ray pos dir).dr := neg_abs_le _
    have hlow : -(D_LAMBDA * dir.length) ≤ D_LAMBDA * (init_ray pos dir).dr := by
      nlinarith [hdr, hneg, hdl.le]
    linarith
  refine ⟨?_, ?_⟩
  · rw [trace_ray, traceLoop_succ, if_neg hguard, if_pos hesc]
  · rw [trace_ray_steps, traceLoopSteps_succ, if_neg hguard, if_pos hesc]

/-- Claim C1, witness: a ray starting on the x axis at radius `2e30` with a
zero direction vector, unit step budget and `r_s = 0` escapes after exactly
one integration step. -/
theorem trace_ray_far_init_escapes_witness :
    (ESCAPE_R + D_LAMBDA * (Vec3.mk 0 0 0).length < (Vec3.mk 2e30 0 0).length) ∧
    ((0 : ℝ) ≤ ESCAPE_R) ∧ (1 ≤ 1) ∧
    (trace_ray (Vec3.mk 2e30 0 0) (Vec3.mk 0 0 0) 0 1 = TraceResult.Escaped ∧
      trace_ray_steps (Vec3.mk 2e30 0 0) (Vec3.mk 0 0 0) 0 1 = 1) := by
  have hA : ESCAPE_R + D_LAMBDA * (Vec3.mk 0 0 0).length < (Vec3.mk (2e30 : ℝ) 0 0).length := by
    rw [length_x_axis 2e30 (by norm_num), length_x_axis 0 le_rfl, ESCAPE_R, D_LAMBDA]
    norm_num
  have hB : (0 : ℝ) ≤ ESCAPE_R := by rw [ESCAPE_R]; norm_num
  exact ⟨hA, hB, le_rfl, trace_ray_far_init_escapes (Vec3.mk 2e30 0 0) (Vec3.mk 0 0 0) 0 1 hA hB le_rfl⟩

/-- Claim C1, counterexample: for the initial position `(2e30, 0, 0)` — whose
radius exceeds `ESCAPE_R = 1e30` — tracing with the Sagittarius A*
Schwarzschild radius and a step budget of one executes exactly one
`rk4_step`, contradicting the claim that the ray terminates without any
integration step executing. -/
theorem trace_ray_far_init_counterexample :
    ESCAPE_R < (Vec3.mk 2e30 0 0).length ∧
    trace_ray_steps (Vec3.mk 2e30 0 0) (Vec3.mk 0 0 0) SAG_A_RS 1 = 1 := by
  have hr : (Vec3.mk (2e30 : ℝ) 0 0).length = 2e30 := length_x_axis 2e30 (by norm_num)
  constructor
  · rw [hr, ESCAPE_R]
    norm_num
  · have hguard : ¬ (init_ray (Vec3.mk (2e30 : ℝ) 0 0) (Vec3.mk 0 0 0)).r ≤ SAG_A_RS := by
      rw [init_ray_r, hr, SAG_A_RS, SAG_A_MASS, G, C]
      norm_num
    show traceLoopSteps (init_ray (Vec3.mk 2e30 0 0) (Vec3.mk 0 0 0)) SAG_A_RS (0 + 1) = 1
    rw [traceLoopSteps_succ, if_neg hguard]
    split
    · rfl
    · rfl

/-- Claim C2 as amended: applying `init_ray` to a non-singular Cartesian
position and mapping the resulting spherical coordinates back through
`Ray::to_cartesian` reproduces the original position with its `y` and `z`
components interchanged — not the original position itself — because
`init_ray` treats `z` as the polar axis while `to_cartesian` treats `y` as
the polar axis. -/
theorem coordinate_round_trip_swaps_y_z (pos dir : Vec3)
    (h : 0 < pos.x * pos.x + pos.y * pos.y) :
    Ray.to_cartesian (init_ray pos dir) = Vec3.mk pos.x pos.z pos.y :=
  to_cartesian_init_ray pos dir h

/-- Claim C2, witness: the swapped round trip at the non-singular position
`(0, 3, 4)`. -/
theorem coordinate_round_trip_swaps_y_z_witness :
    (0 : ℝ) < (Vec3.mk 0 3 4).x * (Vec3.mk 0 3 4).x
        + (Vec3.mk 0 3 4).y * (Vec3.mk 0 3 4).y ∧
    Ray.to_cartesian (init_ray (Vec3.mk 0 3 4) (Vec3.mk 0 0 0)) = Vec3.mk 0 4 3 := by
  have h : (0 : ℝ) < (Vec3.mk (0 : ℝ) 3 4).x * (Vec3.mk (0 : ℝ) 3 4).x
      + (Vec3.mk (0 : ℝ) 3 4).y * (Vec3.mk (0 : ℝ) 3 4).y := by norm_num
  exact ⟨h, coordinate_round_trip_swaps_y_z (Vec3.mk 0 3 4) (Vec3.mk 0 0 0) h⟩

/-- Claim C2, counterexample: at the non-singular position `(0, 3, 4)` the
round trip produces `(0, 4, 3) ≠ (0, 3, 4)`, refuting the claim that it
reproduces the original position. -/
theorem coordinate_round_trip_counterexample :
    (0 : ℝ) < (Vec3.mk 0 3 4).x * (Vec3.mk 0 3 4).x
        + (Vec3.mk 0 3 4).y * (Vec3.mk 0 3 4).y ∧
    Ray.to_cartesian (init_ray (Vec3.mk 0 3 4) (Vec3.mk 0 0 0)) ≠ Vec3.mk 0 3 4 := by
  refine ⟨by norm_num, ?_⟩
  rw [to_cartesian_init_ray _ _ (by norm_num)]
  intro hEq
  rw [Vec3.mk.injEq] at hEq
  norm_num at hEq

end
